import Mathlib

/-!
# Verification of the Netlify concurrency-demo task queue

Shallow embedding of the repository's queue engine:

* `netlify/functions/queue-task.mts` — admission endpoint (retrying append),
* `netlify/functions/process-task.mts` — dispatcher, rate-limit variant,
* the concurrency-variant dispatcher (`MAX_CONCURRENCY = 6`),
* `netlify/functions/clear-queue.mts` — clear endpoint,
* the queue-status handler — read-only projection with rate-limit metrics.

Timestamps (`Date.now()` values) are natural numbers; all `Date.now()` calls
inside a single handler turn are modelled by one parameter `now`.  JavaScript
comparisons of the form `timestamp > now - window` are rendered as
`now < timestamp + window`, which agrees with the integer semantics even when
`now < window` (Nat subtraction would truncate).  The blob store holds a single
JSON blob; a handler turn is modelled as a pure function from the persisted
`QueueState` (plus its inputs) to its result, `none` / an unchanged state
meaning that no write was issued.  Store writes that can fail are modelled by
a list of write outcomes (`true` = the `store.set` succeeded, `false` = it
threw), consumed in order by successive write attempts.
-/

namespace NetlifyQueue

/-- A JSON value, as produced by `req.json()`. -/
inductive Json where
  | null : Json
  | bool (b : Bool) : Json
  | num (n : Int) : Json
  | str (s : String) : Json
  | arr (elems : List Json) : Json
  | obj (fields : List (String × Json)) : Json

/-- JavaScript truthiness of a JSON value (`null`, `false`, `0`, `""` are
falsy; objects and arrays are always truthy). -/
def Json.truthy : Json → Bool
  | .null => false
  | .bool b => b
  | .num n => n ≠ 0
  | .str s => s ≠ ""
  | .arr _ => true
  | .obj _ => true

/-- JavaScript property access `body.data`: on `null` it throws a
`TypeError` (`Except.error`); on an object it yields the field (or
`undefined`, i.e. `none`, when absent); on any other value it yields
`undefined` without throwing. -/
def Json.dataField : Json → Except Unit (Option Json)
  | .null => .error ()
  | .obj fields => .ok (fields.lookup "data")
  | _ => .ok none

/-- Task lifecycle status (`"queued" | "processing" | "completed" | "failed"`). -/
inductive TaskStatus where
  | queued | processing | completed | failed
deriving DecidableEq

/-- The `Task` record of the source files. -/
structure Task where
  id : String
  status : TaskStatus
  createdAt : Nat
  startedAt : Option Nat
  completedAt : Option Nat
  data : Json

/-- `tasks: Record<string, Task>`, modelled as an association list in key
insertion order (JavaScript objects preserve insertion order). -/
abbrev TaskMap := List (String × Task)

/-- JavaScript property assignment `tasks[id] = t`: overwrite the entry in
place if the key exists, otherwise append it. -/
def setTask : TaskMap → String → Task → TaskMap
  | [], id, t => [(id, t)]
  | (k, v) :: rest, id, t =>
      if k = id then (id, t) :: rest else (k, v) :: setTask rest id t

/-- The shared `QueueState` blob.  The concurrency-variant dispatcher's
`QueueState` interface omits `rateLimitHistory`, but at runtime the extra
property survives the JSON round-trip untouched, so one record type models
both variants; the concurrency variant simply never reads or writes the
field. -/
structure QueueState where
  queue : List String
  processing : List String
  completed : List String
  tasks : TaskMap
  rateLimitHistory : List Nat

/-- The empty state returned by `getQueueState` on an absent blob and
written by `clear-queue`. -/
def emptyQueueState : QueueState :=
  { queue := [], processing := [], completed := [], tasks := [],
    rateLimitHistory := [] }

/-- `RATE_LIMIT_REQUESTS` in `process-task.mts`. -/
def RATE_LIMIT_REQUESTS : Nat := 250

/-- `MAX_CONCURRENCY` in the concurrency-variant dispatcher. -/
def MAX_CONCURRENCY : Nat := 6

/-- The `rateLimitHistory` entries inside the trailing 60-second window:
`timestamp > now - 60000` in the source, rendered over Nat as
`now < timestamp + 60000`. -/
def startsInWindow (hist : List Nat) (now : Nat) : List Nat :=
  hist.filter (fun t => now < t + 60000)

/-- `recentStarts`: the number of starts within the trailing 60-second
window. -/
def recentStarts (hist : List Nat) (now : Nat) : Nat :=
  (startsInWindow hist now).length

/-- One dispatch turn of the rate-limit dispatcher (`processNextTask` in
`process-task.mts`, up to its first `saveQueueState`): `none` means the turn
returned without writing; `some s'` means it persisted `s'`.  Mirrors the
source order: empty-queue check, rate-limit gate, `queue.shift()`, missing
task record check, then the mutations and the save. -/
def processNextTask (s : QueueState) (now : Nat) : Option QueueState :=
  match s.queue with
  | [] => none
  | taskId :: rest =>
      if RATE_LIMIT_REQUESTS ≤ recentStarts s.rateLimitHistory now then
        none
      else
        match s.tasks.lookup taskId with
        | none => none
        | some task =>
            some { s with
              queue := rest
              processing := s.processing ++ [taskId]
              tasks := setTask s.tasks taskId
                { task with status := .processing, startedAt := some now }
              rateLimitHistory :=
                (s.rateLimitHistory ++ [now]).filter
                  (fun t => now < t + 3600000) }

/-- One dispatch turn of the concurrency-variant dispatcher (gate
`processing.length >= MAX_CONCURRENCY` checked before the empty-queue
check), again up to its first `saveQueueState`. -/
def processNextTaskC (s : QueueState) (now : Nat) : Option QueueState :=
  if MAX_CONCURRENCY ≤ s.processing.length then
    none
  else
    match s.queue with
    | [] => none
    | taskId :: rest =>
        match s.tasks.lookup taskId with
        | none => none
        | some task =>
            some { s with
              queue := rest
              processing := s.processing ++ [taskId]
              tasks := setTask s.tasks taskId
                { task with status := .processing, startedAt := some now } }

/-- The completion half of a dispatch turn (both dispatcher variants): on the
freshly re-read state, splice the identifier out of `processing` (first
occurrence, no-op when absent), and if the task record exists mark it
completed and append the identifier to `completed`; then save. -/
def completeTask (s : QueueState) (taskId : String) (now : Nat) : QueueState :=
  match s.tasks.lookup taskId with
  | none => { s with processing := s.processing.erase taskId }
  | some task =>
      { s with
        processing := s.processing.erase taskId
        tasks := setTask s.tasks taskId
          { task with status := .completed, completedAt := some now }
        completed := s.completed ++ [taskId] }

/-- The rate-limit dispatcher's claim phase against a store whose `set` can
throw: the single `await saveQueueState(state)` is attempted exactly when the
pure turn decides to write, consuming the first write outcome; a failure
propagates as an exception (`Except.error`) — the source has no retry around
this write. -/
def processNextTaskW (s : QueueState) (now : Nat) (writeOk : List Bool) :
    Except Unit (Option QueueState) :=
  match processNextTask s now with
  | none => .ok none
  | some s' =>
      match writeOk with
      | [] => .error ()
      | ok :: _ => if ok then .ok (some s') else .error ()

/-- The completion write against a fallible store: one unconditional
`saveQueueState`, no retry. -/
def completeTaskW (s : QueueState) (taskId : String) (now : Nat)
    (writeOk : List Bool) : Except Unit QueueState :=
  match writeOk with
  | [] => .error ()
  | ok :: _ => if ok then .ok (completeTask s taskId now) else .error ()

/-- `clear-queue.mts`: unconditionally overwrite the blob with the empty
state. -/
def clearQueue (_s : QueueState) : QueueState := emptyQueueState

/-- The admission handler's payload computation:
`const body = await req.json().catch(() => ({})); ... data: body.data || {}`.
`bodyParse = none` models an absent or unparseable body (the `.catch`
substitutes `{}`); the `body.data` access can throw (only on `null`), which
escapes to the handler's outer `catch`. -/
def payloadOf (bodyParse : Option Json) : Except Unit Json :=
  let body := bodyParse.getD (Json.obj [])
  match body.dataField with
  | .error e => .error e
  | .ok none => .ok (Json.obj [])
  | .ok (some d) => .ok (if d.truthy then d else Json.obj [])

/-- The fresh `Task` record built by the admission handler. -/
def mkTask (taskId : String) (payload : Json) (createdAt : Nat) : Task :=
  { id := taskId, status := .queued, createdAt := createdAt,
    startedAt := none, completedAt := none, data := payload }

/-- The admission mutation applied to the current state:
`state.queue.push(taskId); state.tasks[taskId] = task`. -/
def enqueueTask (s : QueueState) (task : Task) : QueueState :=
  { s with queue := s.queue ++ [task.id],
           tasks := setTask s.tasks task.id task }

/-- The write-attempt phase of the admission retry loop, once an identifier
free of collisions has been found: each iteration of
`while (retries > 0 && !success)` re-reads the (unchanged, in the
sequential semantics) store, re-passes the collision check with the same
fresh identifier, pushes the task, and attempts `saveQueueState`; a failed
attempt decrements `retries`.  An exhausted outcome stream means every
remaining attempt fails, so the loop runs out of retries (`none`). -/
def tryWrites (store : QueueState) (payload : Json) (createdAt : Nat)
    (taskId : String) : List Bool → Nat → Option (String × QueueState)
  | _, 0 => none
  | [], _ + 1 => none
  | ok :: moreOk, r + 1 =>
      if ok then
        some (taskId, enqueueTask store (mkTask taskId payload createdAt))
      else
        tryWrites store payload createdAt taskId moreOk r

/-- The admission retry loop of `queue-task.mts`
(`while (retries > 0 && !success)`), in the sequential (interference-free)
semantics, where the re-read at the top of each iteration returns the same
persisted `store` because no earlier write of this loop succeeded.  `ids` is
the stream of identifiers the generator will mint: the collision branch
(`if (state.tasks[taskId])`) regenerates the identifier and `continue`s
without decrementing `retries`; once a collision-free identifier is found it
stays collision-free (the store does not change between failed attempts), so
the remaining iterations are exactly `tryWrites`.  Returns the minted
identifier and the persisted state on success, `none` on exhaustion (the
handler then throws `"Failed to queue task after retries"`). -/
def admitLoop (store : QueueState) (payload : Json) (createdAt : Nat) :
    List String → List Bool → Nat → Option (String × QueueState)
  | [], _, _ => none
  | _ :: _, _, 0 => none
  | taskId :: moreIds, writeOk, r + 1 =>
      if (store.tasks.lookup taskId).isSome then
        admitLoop store payload createdAt moreIds writeOk (r + 1)
      else
        tryWrites store payload createdAt taskId writeOk (r + 1)

/-- Outcome of one admission request: the HTTP response fields that matter
(`success`, `taskId`, `position`) and the persisted state afterwards. -/
structure AdmitOutcome where
  ok : Bool
  taskId : Option String
  position : Option Nat
  store : QueueState

/-- The `queue-task.mts` handler on a POST request: compute the payload (a
thrown property access lands in the outer `catch` → 500 with the store
untouched), run the retry loop with `retries = 5`, and on success respond
with the identifier and `position = state.queue.length` of the saved copy.
The best-effort dispatch-wake send touches no state and is omitted. -/
def queueTask (store : QueueState) (bodyParse : Option Json)
    (ids : List String) (createdAt : Nat) (writeOk : List Bool) :
    AdmitOutcome :=
  match payloadOf bodyParse with
  | .error _ => { ok := false, taskId := none, position := none, store := store }
  | .ok payload =>
      match admitLoop store payload createdAt ids writeOk 5 with
      | none => { ok := false, taskId := none, position := none, store := store }
      | some (tid, s') =>
          { ok := true, taskId := some tid,
            position := some s'.queue.length, store := s' }

/-- The status handler's `queued` list:
`state.queue.map((id) => state.tasks[id]).filter(Boolean)`. -/
def statusQueued (s : QueueState) : List Task :=
  s.queue.filterMap (fun id => s.tasks.lookup id)

/-- The `rateLimit` block of the queue-status response. -/
structure RateLimitInfo where
  limit : Nat
  windowSeconds : Nat
  used : Nat
  remaining : Nat
  resetAt : Option Nat
deriving DecidableEq

/-- The rate-limit block computed by the queue-status handler.  `remaining`
is `Math.max(0, 250 - recentStarts)`, which over integers is exactly Nat
truncated subtraction; `resetAt` is guarded by
`rateLimitHistory.length > 0 && recentStarts > 0` in the source and takes
`Math.min` of the in-window entries (nonempty under the guard, so the
`Option.map` never sees `none` there). -/
def rateLimitInfo (s : QueueState) (now : Nat) : RateLimitInfo :=
  let used := recentStarts s.rateLimitHistory now
  { limit := 250, windowSeconds := 60, used := used,
    remaining := 250 - used,
    resetAt :=
      if 0 < s.rateLimitHistory.length ∧ 0 < used then
        (startsInWindow s.rateLimitHistory now).min?.map (fun m => m + 60000)
      else none }

/-- Modelled from the claim's words (C6), for comparison with
`rateLimitInfo`: `used` = number of in-window starts, `remaining` =
`max(0, 250 - used)`, `resetAt` = earliest in-window timestamp plus 60000
when at least one in-window entry exists, and null otherwise. -/
def rateLimitInfoSpec (s : QueueState) (now : Nat) : RateLimitInfo :=
  let inWin := startsInWindow s.rateLimitHistory now
  { limit := 250, windowSeconds := 60, used := inWin.length,
    remaining := 250 - inWin.length,
    resetAt := inWin.min?.map (fun m => m + 60000) }

/-- Invariant (a) of the spec: every identifier in `queue`, `processing` or
`completed` has an entry in `tasks`. -/
def listsCovered (s : QueueState) : Prop :=
  (∀ id ∈ s.queue, (s.tasks.lookup id).isSome) ∧
  (∀ id ∈ s.processing, (s.tasks.lookup id).isSome) ∧
  (∀ id ∈ s.completed, (s.tasks.lookup id).isSome)

/-- Invariant (b) of the spec: an identifier appears in at most one of the
three lists. -/
def listsDisjoint (s : QueueState) : Prop :=
  (∀ id ∈ s.queue, id ∉ s.processing) ∧
  (∀ id ∈ s.queue, id ∉ s.completed) ∧
  (∀ id ∈ s.processing, id ∉ s.completed)

/-- The conjunction of invariants (a) and (b), exactly as claimed. -/
def queueInv (s : QueueState) : Prop :=
  listsDisjoint s ∧ listsCovered s

/-- The invariant strengthened with per-list uniqueness: besides (a)/(b),
none of the three lists contains a duplicate identifier. -/
def queueInvND (s : QueueState) : Prop :=
  queueInv s ∧ s.queue.Nodup ∧ s.processing.Nodup ∧ s.completed.Nodup

instance (s : QueueState) : Decidable (listsCovered s) := by
  unfold listsCovered; infer_instance

instance (s : QueueState) : Decidable (listsDisjoint s) := by
  unfold listsDisjoint; infer_instance

instance (s : QueueState) : Decidable (queueInv s) := by
  unfold queueInv; infer_instance

instance (s : QueueState) : Decidable (queueInvND s) := by
  unfold queueInvND; infer_instance

/-! ## Helper lemmas -/

theorem lookup_setTask (ts : TaskMap) (id : String) (t : Task) (j : String) :
    (setTask ts id t).lookup j = if j = id then some t else ts.lookup j := by
  induction ts with
  | nil =>
      by_cases h : j = id
      · subst h; simp [setTask, List.lookup]
      · simp [setTask, List.lookup, h, beq_false_of_ne h]
  | cons kv rest ih =>
      obtain ⟨k, v⟩ := kv
      by_cases hk : k = id
      · subst hk
        by_cases hj : j = k
        · subst hj; simp [setTask, List.lookup]
        · simp [setTask, List.lookup, hj, beq_false_of_ne hj]
      · by_cases hj : j = k
        · subst hj
          have hne : ¬ j = id := fun h => hk (h ▸ rfl)
          simp [setTask, hk, List.lookup, hne]
        · simp [setTask, hk, List.lookup, beq_false_of_ne hj, ih]

theorem lookup_setTask_isSome (ts : TaskMap) (id : String) (t : Task)
    (j : String) (h : (ts.lookup j).isSome) :
    ((setTask ts id t).lookup j).isSome := by
  rw [lookup_setTask]
  split <;> simp_all

theorem tryWrites_allfail (store : QueueState) (p : Json) (c : Nat)
    (tid : String) (wo : List Bool) (r : Nat)
    (hfail : ∀ b ∈ wo, b = false) :
    tryWrites store p c tid wo r = none := by
  induction wo generalizing r with
  | nil => cases r <;> rfl
  | cons b moreOk ih =>
      cases r with
      | zero => rfl
      | succ r' =>
          have hb : b = false := hfail b (List.mem_cons_self _ _)
          subst hb
          simpa [tryWrites] using
            ih r' (fun x hx => hfail x (List.mem_cons_of_mem _ hx))

theorem admitLoop_allfail (store : QueueState) (p : Json) (c : Nat)
    (ids : List String) (wo : List Bool) (r : Nat)
    (hfail : ∀ b ∈ wo, b = false) :
    admitLoop store p c ids wo r = none := by
  induction ids generalizing r with
  | nil => cases r <;> rfl
  | cons tid moreIds ih =>
      cases r with
      | zero => rfl
      | succ r' =>
          by_cases hcol : (store.tasks.lookup tid).isSome
          · simpa [admitLoop, hcol] using ih (r' + 1)
          · simp [admitLoop, hcol, tryWrites_allfail store p c tid wo (r' + 1) hfail]

theorem tryWrites_after_failures (store : QueueState) (p : Json) (c : Nat)
    (tid : String) (pre rest : List Bool) (r : Nat)
    (hlen : pre.length < r) (hfail : ∀ b ∈ pre, b = false) :
    tryWrites store p c tid (pre ++ true :: rest) r =
      some (tid, enqueueTask store (mkTask tid p c)) := by
  induction pre generalizing r with
  | nil =>
      cases r with
      | zero => omega
      | succ r' => simp [tryWrites]
  | cons b pre' ih =>
      cases r with
      | zero => omega
      | succ r' =>
          have hb : b = false := hfail b (List.mem_cons_self _ _)
          subst hb
          have : tryWrites store p c tid ((pre' ++ true :: rest)) r' =
              some (tid, enqueueTask store (mkTask tid p c)) :=
            ih r' (by simpa using Nat.lt_of_succ_lt_succ hlen)
              (fun x hx => hfail x (List.mem_cons_of_mem _ hx))
          simpa [tryWrites] using this

theorem tryWrites_some (store : QueueState) (p : Json) (c : Nat)
    (tid : String) (wo : List Bool) (r : Nat)
    (x : String × QueueState) (h : tryWrites store p c tid wo r = some x) :
    x = (tid, enqueueTask store (mkTask tid p c)) := by
  induction wo generalizing r with
  | nil => cases r <;> simp [tryWrites] at h
  | cons b moreOk ih =>
      cases r with
      | zero => simp [tryWrites] at h
      | succ r' =>
          by_cases hb : b = true
          · subst hb
            simp [tryWrites] at h
            exact h.symm
          · have hb' : b = false := by cases b <;> simp_all
            subst hb'
            exact ih r' (by simpa [tryWrites] using h)

theorem admitLoop_some (store : QueueState) (p : Json) (c : Nat)
    (ids : List String) (wo : List Bool) (r : Nat)
    (x : String × QueueState) (h : admitLoop store p c ids wo r = some x) :
    store.tasks.lookup x.1 = none ∧
      x.2 = enqueueTask store (mkTask x.1 p c) := by
  induction ids generalizing r with
  | nil => cases r <;> simp [admitLoop] at h
  | cons tid moreIds ih =>
      cases r with
      | zero => simp [admitLoop] at h
      | succ r' =>
          by_cases hcol : (store.tasks.lookup tid).isSome
          · exact ih (r' + 1) (by simpa [admitLoop, hcol] using h)
          · have hx := tryWrites_some store p c tid wo (r' + 1) x
              (by simpa [admitLoop, hcol] using h)
            subst hx
            exact ⟨Option.not_isSome_iff_eq_none.mp hcol, rfl⟩

theorem processNextTask_some (s s' : QueueState) (now : Nat)
    (h : processNextTask s now = some s') :
    ∃ tid rest task, s.queue = tid :: rest ∧
      s.tasks.lookup tid = some task ∧
      s' = { s with
        queue := rest
        processing := s.processing ++ [tid]
        tasks := setTask s.tasks tid
          { task with status := .processing, startedAt := some now }
        rateLimitHistory :=
          (s.rateLimitHistory ++ [now]).filter
            (fun t => now < t + 3600000) } := by
  obtain ⟨q, pr, co, ts, hist⟩ := s
  cases q with
  | nil => simp [processNextTask] at h
  | cons tid rest =>
      by_cases hgate : RATE_LIMIT_REQUESTS ≤ recentStarts hist now
      · simp [processNextTask, hgate] at h
      · cases ht : List.lookup tid ts with
        | none => simp [processNextTask, hgate, ht] at h
        | some task =>
            simp only [processNextTask, if_neg hgate, ht] at h
            exact ⟨tid, rest, task, rfl, ht, (Option.some.inj h).symm⟩

theorem processNextTaskC_some (s s' : QueueState) (now : Nat)
    (h : processNextTaskC s now = some s') :
    ∃ tid rest task, s.queue = tid :: rest ∧
      s.tasks.lookup tid = some task ∧
      s' = { s with
        queue := rest
        processing := s.processing ++ [tid]
        tasks := setTask s.tasks tid
          { task with status := .processing, startedAt := some now } } := by
  obtain ⟨q, pr, co, ts, hist⟩ := s
  by_cases hcap : MAX_CONCURRENCY ≤ pr.length
  · simp [processNextTaskC, hcap] at h
  · cases q with
    | nil => simp [processNextTaskC, hcap] at h
    | cons tid rest =>
        cases ht : List.lookup tid ts with
        | none => simp [processNextTaskC, hcap, ht] at h
        | some task =>
            simp only [processNextTaskC, if_neg hcap, ht] at h
            exact ⟨tid, rest, task, rfl, ht, (Option.some.inj h).symm⟩

/-- The state after a start-claim (either dispatcher variant, any new
starts log) satisfies the strengthened invariant. -/
theorem claimed_state_invND (s : QueueState) (tid : String)
    (rest : List String) (t' : Task) (hist' : List Nat)
    (hinv : queueInvND s) (hq : s.queue = tid :: rest) :
    queueInvND
      { queue := rest, processing := (s.processing ++ [tid]),
        completed := s.completed, tasks := setTask s.tasks tid t',
        rateLimitHistory := hist' } := by
  obtain ⟨⟨⟨hqp, hqc, hpc⟩, hcq, hcp, hcc⟩, hnq, hnp, hnc⟩ := hinv
  have htid_q : tid ∈ s.queue := by rw [hq]; exact List.mem_cons_self _ _
  have htid_np : tid ∉ s.processing := hqp tid htid_q
  have htid_nc : tid ∉ s.completed := hqc tid htid_q
  have hrest_sub : ∀ id ∈ rest, id ∈ s.queue := fun id hid => by
    rw [hq]; exact List.mem_cons_of_mem _ hid
  have htid_nrest : tid ∉ rest := by
    rw [hq] at hnq; exact (List.nodup_cons.mp hnq).1
  refine ⟨⟨⟨?_, ?_, ?_⟩, ?_, ?_, ?_⟩, ?_, ?_, hnc⟩
  · intro id hid
    simp only [List.mem_append, List.mem_singleton]
    rintro (hmem | rfl)
    · exact hqp id (hrest_sub id hid) hmem
    · exact htid_nrest hid
  · exact fun id hid => hqc id (hrest_sub id hid)
  · intro id hid
    rcases List.mem_append.mp hid with hmem | hmem
    · exact hpc id hmem
    · rw [List.mem_singleton.mp hmem]; exact htid_nc
  · intro id hid
    exact lookup_setTask_isSome _ _ _ _ (hcq id (hrest_sub id hid))
  · intro id hid
    rcases List.mem_append.mp hid with hmem | hmem
    · exact lookup_setTask_isSome _ _ _ _ (hcp id hmem)
    · rw [List.mem_singleton.mp hmem, lookup_setTask, if_pos rfl]; rfl
  · exact fun id hid => lookup_setTask_isSome _ _ _ _ (hcc id hid)
  · rw [hq] at hnq; exact (List.nodup_cons.mp hnq).2
  · rw [List.nodup_append]
    refine ⟨hnp, List.nodup_singleton _, ?_⟩
    intro a ha hmem
    rw [List.mem_singleton.mp hmem] at ha
    exact htid_np ha

/-- The admission mutation preserves the strengthened invariant when the
minted identifier has no entry in `tasks`. -/
theorem enqueue_invND (s : QueueState) (task : Task)
    (hinv : queueInvND s) (hfresh : s.tasks.lookup task.id = none) :
    queueInvND (enqueueTask s task) := by
  obtain ⟨q, pr, co, ts, hist⟩ := s
  obtain ⟨⟨⟨hqp, hqc, hpc⟩, hcq, hcp, hcc⟩, hnq, hnp, hnc⟩ := hinv
  simp only [enqueueTask] at *
  have hnot : ∀ l : List String, (∀ id ∈ l, (List.lookup id ts).isSome) →
      task.id ∉ l := by
    intro l hcov hmem
    have := hcov task.id hmem
    rw [hfresh] at this
    cases this
  have hnq' : task.id ∉ q := hnot _ hcq
  have hnp' : task.id ∉ pr := hnot _ hcp
  have hnc' : task.id ∉ co := hnot _ hcc
  refine ⟨⟨⟨?_, ?_, hpc⟩, ?_, ?_, ?_⟩, ?_, hnp, hnc⟩
  · intro id hid
    rcases List.mem_append.mp hid with hmem | hmem
    · exact hqp id hmem
    · rw [List.mem_singleton.mp hmem]; exact hnp'
  · intro id hid
    rcases List.mem_append.mp hid with hmem | hmem
    · exact hqc id hmem
    · rw [List.mem_singleton.mp hmem]; exact hnc'
  · intro id hid
    rcases List.mem_append.mp hid with hmem | hmem
    · exact lookup_setTask_isSome _ _ _ _ (hcq id hmem)
    · rw [List.mem_singleton.mp hmem, lookup_setTask, if_pos rfl]; rfl
  · exact fun id hid => lookup_setTask_isSome _ _ _ _ (hcp id hid)
  · exact fun id hid => lookup_setTask_isSome _ _ _ _ (hcc id hid)
  · rw [List.nodup_append]
    refine ⟨hnq, List.nodup_singleton _, ?_⟩
    intro a ha hmem
    rw [List.mem_singleton.mp hmem] at ha
    exact hnq' ha

/-- The completion write preserves the strengthened invariant provided the
completed identifier is not pending and not already completed. -/
theorem completeTask_invND (s : QueueState) (tid : String) (now : Nat)
    (hinv : queueInvND s) (hq : tid ∉ s.queue) (hc : tid ∉ s.completed) :
    queueInvND (completeTask s tid now) := by
  obtain ⟨q, pr, co, ts, hist⟩ := s
  obtain ⟨⟨⟨hqp, hqc, hpc⟩, hcq, hcp, hcc⟩, hnq, hnp, hnc⟩ := hinv
  simp only [QueueState.queue] at hq
  simp only [QueueState.completed] at hc
  unfold completeTask
  cases ht : List.lookup tid ts with
  | none =>
      refine ⟨⟨⟨?_, hqc, ?_⟩, hcq, ?_, hcc⟩, hnq, hnp.erase tid, hnc⟩
      · exact fun id hid hmem => hqp id hid (List.mem_of_mem_erase hmem)
      · exact fun id hid => hpc id (List.mem_of_mem_erase hid)
      · exact fun id hid => hcp id (List.mem_of_mem_erase hid)
  | some task =>
      refine ⟨⟨⟨?_, ?_, ?_⟩, ?_, ?_, ?_⟩, hnq, hnp.erase tid, ?_⟩
      · exact fun id hid hmem => hqp id hid (List.mem_of_mem_erase hmem)
      · intro id hid
        simp only [List.mem_append, List.mem_singleton]
        rintro (hmem | rfl)
        · exact hqc id hid hmem
        · exact hq hid
      · intro id hid
        have hmem := List.mem_of_mem_erase hid
        simp only [List.mem_append, List.mem_singleton]
        rintro (hcm | rfl)
        · exact hpc id hmem hcm
        · exact (hnp.mem_erase_iff.mp hid).1 rfl
      · exact fun id hid => lookup_setTask_isSome _ _ _ _ (hcq id hid)
      · exact fun id hid =>
          lookup_setTask_isSome _ _ _ _ (hcp id (List.mem_of_mem_erase hid))
      · intro id hid
        rcases List.mem_append.mp hid with hmem | hmem
        · exact lookup_setTask_isSome _ _ _ _ (hcc id hmem)
        · rw [List.mem_singleton.mp hmem, lookup_setTask, if_pos rfl]; rfl
      · rw [List.nodup_append]
        refine ⟨hnc, List.nodup_singleton _, ?_⟩
        intro a ha hmem
        rw [List.mem_singleton.mp hmem] at ha
        exact hc ha

/-! ## Claim theorems -/

/-- C9: the clear operation resets the Queue State to its empty form and is
idempotent — clearing twice yields exactly the state of clearing once. -/
theorem clear_resets_idempotent :
    ∀ s : QueueState,
      clearQueue s = emptyQueueState ∧
      clearQueue (clearQueue s) = clearQueue s :=
  fun _ => ⟨rfl, rfl⟩

/-- C2: when the active gate is closed (rate limit reached for the
rate-limit variant, concurrency ceiling reached for the concurrency
variant) or `pending` is empty, a dispatch turn of either variant returns
without writing (`none` = no `saveQueueState` call), so the persisted state
is unchanged and nothing is consumed from `pending`. -/
theorem closed_gate_no_write :
    ∀ (s : QueueState) (now : Nat),
      ((s.queue = [] ∨
          RATE_LIMIT_REQUESTS ≤ recentStarts s.rateLimitHistory now) →
        processNextTask s now = none) ∧
      ((s.queue = [] ∨ MAX_CONCURRENCY ≤ s.processing.length) →
        processNextTaskC s now = none) := by
  intro s now
  constructor
  · rintro (h | h)
    · simp [processNextTask, h]
    · cases hq : s.queue with
      | nil => simp [processNextTask, hq]
      | cons a l => simp [processNextTask, hq, h]
  · rintro (h | h)
    · by_cases hc : MAX_CONCURRENCY ≤ s.processing.length
      · simp [processNextTaskC, hc]
      · simp [processNextTaskC, hc, h]
    · simp [processNextTaskC, h]

/-- C8: when the identifier at the head of `pending` has no record in
`tasks`, the dispatch turn of the rate-limit dispatcher returns normally
(total function, no crash) without persisting anything: no task is started
and the stored state is untouched. -/
theorem missing_record_skipped (s : QueueState) (now : Nat)
    (tid : String) (rest : List String)
    (hq : s.queue = tid :: rest) (ht : s.tasks.lookup tid = none) :
    processNextTask s now = none := by
  by_cases hgate : RATE_LIMIT_REQUESTS ≤ recentStarts s.rateLimitHistory now
  · simp [processNextTask, hq, hgate]
  · simp [processNextTask, hq, hgate, ht]

/-- C1: with `pending` non-empty, the trailing-60-second start count under
the 250 limit, and a task record present for the head identifier, one
dispatch turn of the rate-limit dispatcher pops the head of `pending`,
marks that task `processing` with start timestamp `now`, appends the
identifier to `processing`, appends `now` to the starts log, prunes starts
entries outside the one-hour retention horizon, and persists the result
(`some` = the turn calls `saveQueueState`). -/
theorem rate_dispatch_claims_head (s : QueueState) (now : Nat)
    (tid : String) (rest : List String) (task : Task)
    (hq : s.queue = tid :: rest)
    (hr : recentStarts s.rateLimitHistory now < RATE_LIMIT_REQUESTS)
    (ht : s.tasks.lookup tid = some task) :
    ∃ s', processNextTask s now = some s' ∧
      s'.queue = rest ∧
      s'.tasks.lookup tid =
        some { task with status := .processing, startedAt := some now } ∧
      s'.processing = s.processing ++ [tid] ∧
      s'.completed = s.completed ∧
      s'.rateLimitHistory =
        s.rateLimitHistory.filter (fun t => now < t + 3600000) ++ [now] := by
  have hgate : ¬ RATE_LIMIT_REQUESTS ≤ recentStarts s.rateLimitHistory now :=
    Nat.not_le.mpr hr
  refine ⟨{ s with
      queue := rest
      processing := s.processing ++ [tid]
      tasks := setTask s.tasks tid
        { task with status := .processing, startedAt := some now }
      rateLimitHistory :=
        (s.rateLimitHistory ++ [now]).filter (fun t => now < t + 3600000) },
    by simp [processNextTask, hq, hgate, ht], rfl, ?_, rfl, rfl, ?_⟩
  · simp [lookup_setTask]
  · simp [List.filter_append]

/-- C6: the status projection's rate-limit block agrees pointwise with the
claim's formulas (`rateLimitInfoSpec`): `used` is the in-window start
count, `remaining = max(0, 250 - used)`, and `resetAt` is the earliest
in-window timestamp plus 60000 exactly when an in-window entry exists and
null otherwise; the handler is a pure read and issues no write. -/
theorem status_rate_limit_projection :
    ∀ (s : QueueState) (now : Nat),
      rateLimitInfo s now = rateLimitInfoSpec s now := by
  intro s now
  have hreset :
      (if 0 < s.rateLimitHistory.length ∧
          0 < recentStarts s.rateLimitHistory now then
        (startsInWindow s.rateLimitHistory now).min?.map (fun m => m + 60000)
      else none) =
      (startsInWindow s.rateLimitHistory now).min?.map (fun m => m + 60000) := by
    by_cases h : 0 < recentStarts s.rateLimitHistory now
    · have hlen : 0 < s.rateLimitHistory.length :=
        lt_of_lt_of_le h (List.length_filter_le _ _)
      rw [if_pos ⟨hlen, h⟩]
    · rw [if_neg (fun hc => h hc.2)]
      have hnil : startsInWindow s.rateLimitHistory now = [] :=
        List.length_eq_zero.mp (Nat.eq_zero_of_not_pos h)
      rw [hnil]
      rfl
  simp only [rateLimitInfo, rateLimitInfoSpec, recentStarts] at hreset ⊢
  rw [hreset]

/-- C5: when every `saveQueueState` attempt during admission fails until the
5 bounded retries are exhausted, the handler responds with the failure
outcome (`success: false`, HTTP 500) and the persisted queue state is
bit-for-bit unchanged — the new task was never queued and no partial
mutation was applied. -/
theorem admission_retry_exhaustion (store : QueueState)
    (bodyParse : Option Json) (ids : List String) (createdAt : Nat)
    (writeOk : List Bool) (hfail : ∀ b ∈ writeOk, b = false) :
    (queueTask store bodyParse ids createdAt writeOk).ok = false ∧
    (queueTask store bodyParse ids createdAt writeOk).store = store := by
  cases hp : payloadOf bodyParse with
  | error e => simp [queueTask, hp]
  | ok p =>
      simp [queueTask, hp,
        admitLoop_allfail store p createdAt ids writeOk 5 hfail]

/-- C3 fails on the code: the dispatcher's start-claim write is a single
`store.set` with no retry.  At a state whose head task is claimable, with a
write-outcome stream whose first attempt fails and whose second would
succeed, the dispatch turn surfaces an error (`Except.error`) instead of
retrying — while the admission endpoint given the same outcomes retries and
succeeds. -/
theorem dispatcher_write_no_retry_cex :
    processNextTaskW
      { queue := ["a"], processing := [], completed := [],
        tasks := [("a", mkTask "a" (Json.obj []) 0)], rateLimitHistory := [] }
      0 [false, true] = .error () ∧
    (queueTask emptyQueueState none ["a"] 0 [false, true]).ok = true :=
  ⟨rfl, rfl⟩

/-- C3 amended: only admission's append goes through the retry layer (up to
5 attempts, re-reading state each attempt); the dispatcher's start-claim
and completion writes are single write attempts with no retry — a failed
first write surfaces immediately as an error, and no state is persisted by
that turn, regardless of later outcomes. -/
theorem retry_layer_amended :
    (∀ (s s' : QueueState) (now : Nat) (rest : List Bool),
      processNextTaskW s now (false :: rest) ≠ .ok (some s')) ∧
    (∀ (s : QueueState) (tid : String) (now : Nat) (rest : List Bool),
      completeTaskW s tid now (false :: rest) = .error ()) ∧
    (∀ (store : QueueState) (bodyParse : Option Json) (p : Json)
        (i : String) (createdAt : Nat) (pre rest : List Bool),
      payloadOf bodyParse = .ok p →
      pre.length < 5 → (∀ b ∈ pre, b = false) →
      store.tasks.lookup i = none →
      (queueTask store bodyParse [i] createdAt (pre ++ true :: rest)).ok
        = true) := by
  refine ⟨?_, ?_, ?_⟩
  · intro s s' now rest h
    unfold processNextTaskW at h
    cases hs : processNextTask s now with
    | none => rw [hs] at h; exact Option.noConfusion (Except.ok.inj h)
    | some s'' => rw [hs] at h; simp at h
  · intro s tid now rest
    rfl
  · intro store bodyParse p i createdAt pre rest hp hlen hfail hfresh
    have hcol : ¬ (store.tasks.lookup i).isSome := by simp [hfresh]
    simp [queueTask, hp, admitLoop, hcol,
      tryWrites_after_failures store p createdAt i pre rest 5 hlen hfail]

/-- Witness for `retry_layer_amended`: admission with two failed writes and
a third successful one still succeeds. -/
theorem retry_layer_amended_witness :
    (queueTask emptyQueueState none ["b"] 0 [false, false, true]).ok = true :=
  retry_layer_amended.2.2 emptyQueueState none (Json.obj []) "b" 0
    [false, false] [] rfl (by decide) (by decide) rfl

/-- C4 fails on the code: the completion write pushes the identifier onto
`completed` whenever its task record exists, without checking that it is
still absent from `pending` — on a state where the identifier sits in
`pending` (reachable when a concurrent dispatch turn's snapshot write
resurrects it, the documented lost-update race), the invariant
(disjointness of the three lists) holds before the completion write and is
broken after it. -/
theorem invariant_preservation_cex :
    queueInv
      { queue := ["a"], processing := [], completed := [],
        tasks := [("a", mkTask "a" (Json.obj []) 0)],
        rateLimitHistory := [] } ∧
    ¬ queueInv
      (completeTask
        { queue := ["a"], processing := [], completed := [],
          tasks := [("a", mkTask "a" (Json.obj []) 0)],
          rateLimitHistory := [] }
        "a" 9) :=
  ⟨by decide, by decide⟩

/-- C4 amended: with the invariant strengthened by per-list uniqueness
(no duplicate identifiers inside `pending`, `inFlight`, `completed`),
admission (any outcome of the full handler), the start-claim of either
dispatcher variant, and clear preserve it; the completion write preserves
it provided the completed identifier is not pending and not already
completed — which holds for an identifier the completing turn claimed out
of `pending` into `inFlight`. -/
theorem invariant_preservation_amended :
    (∀ (store : QueueState) (bodyParse : Option Json) (ids : List String)
        (createdAt : Nat) (writeOk : List Bool),
      queueInvND store →
      queueInvND (queueTask store bodyParse ids createdAt writeOk).store) ∧
    (∀ (s s' : QueueState) (now : Nat),
      queueInvND s → processNextTask s now = some s' → queueInvND s') ∧
    (∀ (s s' : QueueState) (now : Nat),
      queueInvND s → processNextTaskC s now = some s' → queueInvND s') ∧
    (∀ (s : QueueState) (tid : String) (now : Nat),
      queueInvND s → tid ∉ s.queue → tid ∉ s.completed →
      queueInvND (completeTask s tid now)) ∧
    (∀ s : QueueState, queueInvND (clearQueue s)) := by
  refine ⟨?_, ?_, ?_, ?_, ?_⟩
  · intro store bodyParse ids createdAt writeOk hinv
    cases hp : payloadOf bodyParse with
    | error e => simpa [queueTask, hp] using hinv
    | ok p =>
        cases hl : admitLoop store p createdAt ids writeOk 5 with
        | none => simpa [queueTask, hp, hl] using hinv
        | some x =>
            obtain ⟨hfresh, hx⟩ :=
              admitLoop_some store p createdAt ids writeOk 5 x hl
            have hst :
                (queueTask store bodyParse ids createdAt writeOk).store
                  = x.2 := by
              obtain ⟨tid, s'⟩ := x
              simp [queueTask, hp, hl]
            rw [hst, hx]
            exact enqueue_invND store (mkTask x.1 p createdAt) hinv hfresh
  · intro s s' now hinv h
    obtain ⟨tid, rest, task, hq, _, hs'⟩ := processNextTask_some s s' now h
    subst hs'
    exact claimed_state_invND s tid rest _ _ hinv hq
  · intro s s' now hinv h
    obtain ⟨tid, rest, task, hq, _, hs'⟩ := processNextTaskC_some s s' now h
    subst hs'
    exact claimed_state_invND s tid rest _ _ hinv hq
  · exact completeTask_invND
  · intro s
    exact ⟨⟨⟨by simp [clearQueue, emptyQueueState], by simp [clearQueue, emptyQueueState],
      by simp [clearQueue, emptyQueueState]⟩, by simp [clearQueue, emptyQueueState],
      by simp [clearQueue, emptyQueueState], by simp [clearQueue, emptyQueueState]⟩,
      List.nodup_nil, List.nodup_nil, List.nodup_nil⟩

/-- Witness for `invariant_preservation_amended`: the completion conjunct
applied at a concrete in-flight task. -/
theorem invariant_preservation_amended_witness :
    queueInvND
      (completeTask
        { queue := [], processing := ["b"], completed := [],
          tasks := [("b", mkTask "b" (Json.obj []) 1)],
          rateLimitHistory := [] }
        "b" 7) :=
  invariant_preservation_amended.2.2.2.1
    { queue := [], processing := ["b"], completed := [],
      tasks := [("b", mkTask "b" (Json.obj []) 1)],
      rateLimitHistory := [] }
    "b" 7 (by decide) (by decide) (by decide)

/-- C7: admitting a task (fresh identifier, successful write) and then
reading the status projection shows the new task in the queued list with
the admitted identifier and payload, and the returned position equals the
length of `pending` after the append (its 1-based position). -/
theorem admit_status_round_trip (store : QueueState)
    (bodyParse : Option Json) (p : Json) (i : String) (createdAt : Nat)
    (hp : payloadOf bodyParse = .ok p)
    (hfresh : store.tasks.lookup i = none) :
    (queueTask store bodyParse [i] createdAt [true]).ok = true ∧
    (queueTask store bodyParse [i] createdAt [true]).taskId = some i ∧
    mkTask i p createdAt ∈
      statusQueued (queueTask store bodyParse [i] createdAt [true]).store ∧
    (mkTask i p createdAt).id = i ∧
    (mkTask i p createdAt).data = p ∧
    (queueTask store bodyParse [i] createdAt [true]).position =
      some (queueTask store bodyParse [i] createdAt [true]).store.queue.length
    := by
  have hcol : ¬ (store.tasks.lookup i).isSome := by simp [hfresh]
  have hloop : admitLoop store p createdAt [i] [true] 5 =
      some (i, enqueueTask store (mkTask i p createdAt)) := by
    simp [admitLoop, hcol, tryWrites]
  refine ⟨by simp [queueTask, hp, hloop], by simp [queueTask, hp, hloop],
    ?_, rfl, rfl, by simp [queueTask, hp, hloop]⟩
  have hmem : i ∈ (enqueueTask store (mkTask i p createdAt)).queue := by
    simp [enqueueTask, mkTask]
  have hlook :
      (enqueueTask store (mkTask i p createdAt)).tasks.lookup i =
        some (mkTask i p createdAt) := by
    simp [enqueueTask, lookup_setTask, mkTask]
  have : mkTask i p createdAt ∈
      statusQueued (enqueueTask store (mkTask i p createdAt)) :=
    List.mem_filterMap.mpr ⟨i, hmem, hlook⟩
  simpa [queueTask, hp, hloop] using this

/-- Witness for `admit_status_round_trip` at the empty store. -/
theorem admit_status_round_trip_witness :
    (queueTask emptyQueueState none ["c"] 3 [true]).ok = true ∧
    (queueTask emptyQueueState none ["c"] 3 [true]).taskId = some "c" ∧
    mkTask "c" (Json.obj []) 3 ∈
      statusQueued (queueTask emptyQueueState none ["c"] 3 [true]).store ∧
    (mkTask "c" (Json.obj []) 3).id = "c" ∧
    (mkTask "c" (Json.obj []) 3).data = Json.obj [] ∧
    (queueTask emptyQueueState none ["c"] 3 [true]).position =
      some (queueTask emptyQueueState none ["c"] 3 [true]).store.queue.length
    :=
  admit_status_round_trip emptyQueueState none (Json.obj []) "c" 3 rfl rfl

/-- C10 fails on the code: a request body that parses to JSON `null`
passes `req.json().catch(...)` unscathed, and the subsequent property
access `body.data` throws a `TypeError`, so admission answers the failure
response (500) instead of proceeding with an empty-object payload. -/
theorem lenient_body_cex :
    (queueTask emptyQueueState (some Json.null) ["a"] 0 [true]).ok = false :=
  rfl

/-- C10 amended: for a body that is absent or unparseable, or parses to a
value on which the `data` access yields `undefined` or a falsy field, the
payload resolves to the empty object and admission (fresh identifier,
successful write) proceeds to the success path, storing the task with
payload `{}`; a body parsing to JSON `null`, however, makes the `data`
access throw, and admission answers the failure response with the store
unchanged. -/
theorem lenient_body_amended (bodyParse : Option Json)
    (h : bodyParse = none ∨
      ∃ b, bodyParse = some b ∧
        (b.dataField = .ok none ∨
          ∃ d, b.dataField = .ok (some d) ∧ d.truthy = false)) :
    payloadOf bodyParse = .ok (Json.obj []) ∧
    (∀ (store : QueueState) (i : String) (createdAt : Nat),
      store.tasks.lookup i = none →
      (queueTask store bodyParse [i] createdAt [true]).ok = true ∧
      (queueTask store bodyParse [i] createdAt [true]).store.tasks.lookup i
        = some (mkTask i (Json.obj []) createdAt)) ∧
    (∀ (store : QueueState) (ids : List String) (createdAt : Nat)
        (writeOk : List Bool),
      (queueTask store (some Json.null) ids createdAt writeOk).ok = false ∧
      (queueTask store (some Json.null) ids createdAt writeOk).store
        = store) := by
  have hp : payloadOf bodyParse = .ok (Json.obj []) := by
    rcases h with rfl | ⟨b, rfl, hd | ⟨d, hd, hdf⟩⟩
    · rfl
    · simp [payloadOf, hd]
    · simp [payloadOf, hd, hdf]
  refine ⟨hp, ?_, ?_⟩
  · intro store i createdAt hfresh
    have hcol : ¬ (store.tasks.lookup i).isSome := by simp [hfresh]
    have hloop : admitLoop store (Json.obj []) createdAt [i] [true] 5 =
        some (i, enqueueTask store (mkTask i (Json.obj []) createdAt)) := by
      simp [admitLoop, hcol, tryWrites]
    constructor
    · simp [queueTask, hp, hloop]
    · have hlook :
          (enqueueTask store (mkTask i (Json.obj []) createdAt)).tasks.lookup i
            = some (mkTask i (Json.obj []) createdAt) := by
        simp [enqueueTask, lookup_setTask, mkTask]
      simpa [queueTask, hp, hloop] using hlook
  · intro store ids createdAt writeOk
    constructor <;> rfl

/-- Witness for `lenient_body_amended`: an absent body stores payload
`{}` and succeeds. -/
theorem lenient_body_amended_witness :
    payloadOf none = .ok (Json.obj []) ∧
    (queueTask emptyQueueState none ["d"] 0 [true]).ok = true :=
  ⟨(lenient_body_amended none (Or.inl rfl)).1,
    ((lenient_body_amended none (Or.inl rfl)).2.1
      emptyQueueState "d" 0 rfl).1⟩

/-- Witness for `admission_retry_exhaustion` at a concrete state and an
all-failing write stream. -/
theorem admission_retry_exhaustion_witness :
    (queueTask emptyQueueState none ["a"] 0
        [false, false, false, false, false]).ok = false ∧
    (queueTask emptyQueueState none ["a"] 0
        [false, false, false, false, false]).store = emptyQueueState :=
  admission_retry_exhaustion emptyQueueState none ["a"] 0
    [false, false, false, false, false] (by decide)

/-- Witness for `rate_dispatch_claims_head`: one queued task, empty
history, dispatch at time 5. -/
theorem rate_dispatch_claims_head_witness :
    ∃ s', processNextTask
        { queue := ["a"], processing := [], completed := [],
          tasks := [("a", mkTask "a" (Json.obj []) 0)],
          rateLimitHistory := [] } 5 = some s' ∧
      s'.queue = [] ∧
      s'.tasks.lookup "a" = some
        { id := "a", status := .processing, createdAt := 0,
          startedAt := some 5, completedAt := none, data := Json.obj [] } ∧
      s'.processing = ["a"] ∧
      s'.completed = [] ∧
      s'.rateLimitHistory = [5] :=
  rate_dispatch_claims_head
    { queue := ["a"], processing := [], completed := [],
      tasks := [("a", mkTask "a" (Json.obj []) 0)],
      rateLimitHistory := [] }
    5 "a" [] (mkTask "a" (Json.obj []) 0) rfl (by decide) rfl

/-- Witness for `closed_gate_no_write`: the empty queue. -/
theorem closed_gate_no_write_witness :
    processNextTask emptyQueueState 0 = none ∧
    processNextTaskC emptyQueueState 0 = none :=
  ⟨(closed_gate_no_write emptyQueueState 0).1 (Or.inl rfl),
    (closed_gate_no_write emptyQueueState 0).2 (Or.inl rfl)⟩

/-- Witness for `missing_record_skipped`: a pending identifier with no
task record. -/
theorem missing_record_skipped_witness :
    processNextTask
      { queue := ["ghost"], processing := [], completed := [],
        tasks := [], rateLimitHistory := [] } 2 = none :=
  missing_record_skipped
    { queue := ["ghost"], processing := [], completed := [],
      tasks := [], rateLimitHistory := [] }
    2 "ghost" [] rfl rfl

end NetlifyQueue
